import Mathlib

/-!
Shallow embedding of the mr-conflict-checker repository (Go) in Lean 4.

The embedding covers the data model (package models), the GitLab API
pagination loop of the client (gitlab/client.go, ListRepositories), the
repository scanner (package scanner) and the merge-request analyzer
(package analyzer).  HTTP interactions are modelled by a Client record of
response functions: each field gives, for each argument tuple, the decoded
result (or error) the corresponding Go method observes.  Go error values
are modelled as String (nil error = Option.none where a field may be nil);
fallible operations return Except String.  time.Time creation stamps are
modelled as Int instants; t1.After(t2) is t2 < t1.

The call sort.Slice(xs, less) from the Go standard library sorts xs by less;
Go documents the tie order of sort.Slice as unspecified (the sort is not
guaranteed to be stable).  It is modelled here by insertion sort over the
same comparison; no theorem below about the repository depends on the
tie order of the model.
-/

namespace MRCC

/-! ## Data model: internal/models -/

/-- RepositoryStatus represents the status of a repository during scanning
(models package, Go iota constants). -/
inductive RepositoryStatus where
  | statusAccessible
  | statusError
  | statusNoMRs
  | statusConflicts
  deriving DecidableEq, Repr, Inhabited

/-- MergeRequest represents a GitLab merge request (models package).
Fields not inspected by the scanner, analyzer or report counters
(title, author, web URL, merge status, changes-count string) are omitted;
the Go code carries them through without reading them. -/
structure MergeRequest where
  id : Int
  sourceBranch : String
  targetBranch : String
  hasConflicts : Bool
  createdAt : Int
  deriving DecidableEq, Repr, Inhabited

/-- Repository represents a GitLab repository (models package).  The
namespace is flattened to its identifier, the only part the code reads. -/
structure Repository where
  id : Int
  name : String
  webURL : String
  namespaceId : Int
  status : RepositoryStatus
  error : Option String
  deriving DecidableEq, Repr, Inhabited

/-- RepositoryReport represents the data of one repository in the report
(models package). -/
structure RepositoryReport where
  repository : Repository
  conflictingMRs : List MergeRequest
  status : RepositoryStatus
  errorMessage : String
  deriving DecidableEq, Repr, Inhabited

/-- Report represents the summary statistics and data for the conflict
report (models package).  Counters are Go int values; no arithmetic other
than increments occurs, so they are modelled as Int. -/
structure Report where
  timestamp : String
  totalRepositories : Int
  repositoriesWithConflicts : Int
  totalConflictingMRs : Int
  repositories : List RepositoryReport
  deriving DecidableEq, Repr, Inhabited

/-- Go zero value of Report, the receiver state of a fresh Report literal. -/
def emptyReport : Report :=
  { timestamp := ""
    totalRepositories := 0
    repositoriesWithConflicts := 0
    totalConflictingMRs := 0
    repositories := [] }

/-- AddRepository adds a repository to the report with its conflicting MRs
(models package, method on Report). -/
def Report.AddRepository (r : Report) (repo : Repository)
    (conflictingMRs : List MergeRequest) (status : RepositoryStatus)
    (errorMsg : String) : Report :=
  let repoReport : RepositoryReport :=
    { repository := repo
      conflictingMRs := conflictingMRs
      status := status
      errorMessage := errorMsg }
  let r1 := { r with
    repositories := r.repositories ++ [repoReport]
    totalRepositories := r.totalRepositories + 1 }
  if status = .statusConflicts then
    { r1 with
      repositoriesWithConflicts := r1.repositoriesWithConflicts + 1
      totalConflictingMRs := r1.totalConflictingMRs + conflictingMRs.length }
  else
    r1

/-- GetSummaryStats returns the summary statistics for the report
(models package). -/
def Report.GetSummaryStats (r : Report) : Int × Int × Int :=
  (r.totalRepositories, r.repositoriesWithConflicts, r.totalConflictingMRs)

/-! ## Argument record for a single AddRepository call, and call sequences -/

/-- Arguments of one Report.AddRepository call. -/
structure AddCall where
  repo : Repository
  conflictingMRs : List MergeRequest
  status : RepositoryStatus
  errorMsg : String
  deriving DecidableEq, Repr, Inhabited

/-- Runs a sequence of AddRepository calls against a report, in order. -/
def runAddCalls (r : Report) (calls : List AddCall) : Report :=
  calls.foldl
    (fun acc c => acc.AddRepository c.repo c.conflictingMRs c.status c.errorMsg) r

/-- Entries of a report list whose status is Conflicts. -/
def conflictEntries (l : List RepositoryReport) : List RepositoryReport :=
  l.filter (fun e => e.status = .statusConflicts)

/-- The three counter equations the spec requires of a report. -/
def summaryConsistent (r : Report) : Prop :=
  r.totalRepositories = (r.repositories.length : Int) ∧
  r.repositoriesWithConflicts = ((conflictEntries r.repositories).length : Int) ∧
  r.totalConflictingMRs =
    ((conflictEntries r.repositories).map
      (fun e => (e.conflictingMRs.length : Int))).sum

/-! ## gitlab.Client

The Go Client holds a base URL, token, HTTP client and rate limiter; its
observable behaviour, as consumed by the scanner and analyzer, is the
decoded response (or error) of each API operation.  The record below holds
those responses.  projectsPage n models one GET of
/projects?membership=true&page=n&per_page=100 as issued by the
ListRepositories pagination loop, which is embedded explicitly below
because claim C6 is about that loop.  listMergeRequests and
getMergeRequestChanges model the aggregated results of the corresponding
Client methods, which the scanner and analyzer consume whole. -/

structure Client where
  projectsPage : Nat → Except String (List Repository)
  listMergeRequests : Int → String → String → Except String (List MergeRequest)
  getMergeRequestChanges : Int → Int → Except String Int

/-- Pagination loop body of Client.ListRepositories (gitlab/client.go):
request page, decode, append, stop when the returned page is strictly
shorter than perPage, else advance to the next page.  The Go loop has no
bound; fuel counts the page requests still allowed, and every terminating
execution of the Go loop is reproduced by any sufficiently large fuel. -/
def listRepositoriesAux (c : Client) (perPage : Nat) :
    Nat → Nat → Except String (List Repository)
  | 0, _ => .error "pagination out of fuel"
  | fuel + 1, page =>
    match c.projectsPage page with
    | .error e =>
        .error ("failed to list repositories (page " ++ toString page ++ "): " ++ e)
    | .ok repos =>
        if repos.length < perPage then
          .ok repos
        else
          match listRepositoriesAux c perPage fuel (page + 1) with
          | .error e => .error e
          | .ok rest => .ok (repos ++ rest)

/-- ListRepositories retrieves all repositories with pagination
(gitlab/client.go): perPage is fixed at 100, pages start at 1. -/
def Client.ListRepositories (c : Client) (fuel : Nat) :
    Except String (List Repository) :=
  listRepositoriesAux c 100 fuel 1

/-! ## scanner.RepositoryScanner -/

/-- RepositoryScanner handles scanning repositories for merge request
conflicts (scanner package). -/
structure RepositoryScanner where
  client : Client
  includeGroups : List Int

/-- NewRepositoryScanner creates a new repository scanner (scanner package). -/
def NewRepositoryScanner (client : Client) (includeGroups : List Int) :
    RepositoryScanner :=
  { client := client, includeGroups := includeGroups }

/-- filterRepositories keeps only repositories from included groups
(scanner package).  The Go code builds a lookup map from includeGroups and
keeps repositories whose namespace id is a key; membership in the list is
the same test. -/
def RepositoryScanner.filterRepositories (rs : RepositoryScanner)
    (repos : List Repository) : List Repository :=
  if rs.includeGroups.length = 0 then
    repos
  else
    repos.filter (fun repo => rs.includeGroups.contains repo.namespaceId)

/-- processRepository determines the status of a single repository
(scanner package). -/
def RepositoryScanner.processRepository (rs : RepositoryScanner)
    (repo : Repository) : Repository :=
  let repo := { repo with status := .statusAccessible, error := none }
  match rs.client.listMergeRequests repo.id "release" "master" with
  | .error e => { repo with status := .statusError, error := some e }
  | .ok mrs =>
      if mrs.length = 0 then
        { repo with status := .statusNoMRs }
      else if mrs.any (fun mr => mr.hasConflicts) then
        { repo with status := .statusConflicts }
      else
        { repo with status := .statusNoMRs }

/-- ScanRepositories retrieves all accessible repositories and determines
their status (scanner package). -/
def RepositoryScanner.ScanRepositories (rs : RepositoryScanner) (fuel : Nat) :
    Except String (List Repository) :=
  match rs.client.ListRepositories fuel with
  | .error e => .error ("failed to retrieve repositories: " ++ e)
  | .ok repos =>
      let filteredRepos := rs.filterRepositories repos
      .ok (filteredRepos.map rs.processRepository)

/-- GetRepositoryCount returns the total number of repositories that would
be scanned (scanner package). -/
def RepositoryScanner.GetRepositoryCount (rs : RepositoryScanner) (fuel : Nat) :
    Except String Nat :=
  match rs.client.ListRepositories fuel with
  | .error e => .error ("failed to count repositories: " ++ e)
  | .ok repos => .ok (rs.filterRepositories repos).length

/-! ## analyzer package -/

/-- Comparison passed to sort.Slice in the analyzer:
mrs[i].CreatedAt.After(mrs[j].CreatedAt), newest first. -/
def createdAfter (a b : MergeRequest) : Prop :=
  b.createdAt < a.createdAt

instance : DecidableRel createdAfter :=
  fun a b => inferInstanceAs (Decidable (b.createdAt < a.createdAt))

/-- filterAndSortConflictingMRs filters merge requests for basic conflicts
and sorts by creation date, newest first (analyzer package).  The sort
models sort.Slice with the createdAfter comparison; the tie order of
sort.Slice is unspecified in Go, and no theorem below depends on the tie
order of this model. -/
def filterAndSortConflictingMRs (mrs : List MergeRequest) : List MergeRequest :=
  List.insertionSort createdAfter
    (mrs.filter (fun mr =>
      mr.sourceBranch == "release" && mr.targetBranch == "master" && mr.hasConflicts))

/-- hasActualChanges checks if a merge request has actual file changes
(analyzer package): true when the change-count lookup fails, else true
exactly when the count is positive. -/
def hasActualChanges (c : Client) (projectID mrID : Int) : Bool :=
  match c.getMergeRequestChanges projectID mrID with
  | .error _ => true
  | .ok changesCount => decide (0 < changesCount)

/-- filterAndSortRealConflictingMRs filters merge requests for real
conflicts (with actual changes) and sorts by creation date, newest first
(analyzer package). -/
def filterAndSortRealConflictingMRs (c : Client) (projectID : Int)
    (mrs : List MergeRequest) : List MergeRequest :=
  List.insertionSort createdAfter
    (mrs.filter (fun mr =>
      mr.sourceBranch == "release" && mr.targetBranch == "master" &&
        mr.hasConflicts && hasActualChanges c projectID mr.id))

/-- analyzeRepository analyzes a single repository for conflicting merge
requests (analyzer package). -/
def analyzeRepository (c : Client) (repo : Repository) :
    Except String Repository :=
  match c.listMergeRequests repo.id "release" "master" with
  | .error e =>
      .error ("failed to fetch merge requests for repository " ++ repo.name ++ ": " ++ e)
  | .ok mrs =>
      let conflictingMRs := filterAndSortRealConflictingMRs c repo.id mrs
      .ok (if conflictingMRs.length > 0 then
            { repo with status := .statusConflicts }
          else if mrs.length > 0 then
            { repo with status := .statusAccessible }
          else
            { repo with status := .statusNoMRs })

/-- Per-repository step of the AnalyzeMRs loop: error repositories pass
through untouched; otherwise a failed analysis overwrites status and error
and the loop continues (analyzer package). -/
def analyzeStep (c : Client) (repo : Repository) : Repository :=
  if repo.status = .statusError then
    repo
  else
    match analyzeRepository c repo with
    | .ok analyzedRepo => analyzedRepo
    | .error e => { repo with status := .statusError, error := some e }

/-- AnalyzeMRs analyzes repositories for conflicting merge requests from
release to master branch (analyzer package).  The Go client pointer may be
nil, hence Option Client. -/
def AnalyzeMRs (client : Option Client) (repositories : List Repository) :
    Except String (List Repository) :=
  match client with
  | none => .error "gitlab client cannot be nil"
  | some c => .ok (repositories.map (analyzeStep c))

/-- Loop body of GetConflictingMRs (analyzer package): for a Conflicts
repository, fetch, filter and sort; a fetch error skips the repository, a
non-empty survivor list is stored under the repository id. -/
def getConflictingStep (c : Client) (m : Int → Option (List MergeRequest))
    (repo : Repository) : Int → Option (List MergeRequest) :=
  if repo.status = .statusConflicts then
    match c.listMergeRequests repo.id "release" "master" with
    | .error _ => m
    | .ok mrs =>
        let conflicts := filterAndSortRealConflictingMRs c repo.id mrs
        if conflicts.length > 0 then
          fun k => if k = repo.id then some conflicts else m k
        else
          m
  else
    m

/-- GetConflictingMRs retrieves all conflicting merge requests from
analyzed repositories (analyzer package).  The Go map[int][]MergeRequest is
modelled as a lookup function built by successive key updates; a Go map
assignment at an existing key overwrites, which the functional update also
does.  The Go function never returns a non-nil error. -/
def GetConflictingMRs (c : Client) (repositories : List Repository) :
    Except String (Int → Option (List MergeRequest)) :=
  .ok (repositories.foldl (getConflictingStep c) (fun _ => none))

/-- The contribution of a single repository to the GetConflictingMRs map:
some non-empty survivor list for a Conflicts repository whose fetch
succeeded and whose filter kept something, none otherwise. -/
def conflictsEntry (c : Client) (repo : Repository) :
    Option (List MergeRequest) :=
  if repo.status = .statusConflicts then
    match c.listMergeRequests repo.id "release" "master" with
    | .error _ => none
    | .ok mrs =>
        let conflicts := filterAndSortRealConflictingMRs c repo.id mrs
        if conflicts.length > 0 then some conflicts else none
  else
    none

/-! ## Specification-side predicates -/

/-- The spec invariant relating the status and error field of a repository:
status Error exactly when a (non-nil) error value is present. -/
def errorConsistent (r : Repository) : Prop :=
  r.status = .statusError ↔ r.error ≠ none

/-! ## Concrete sample data, used to evaluate the theorems on closed inputs -/

/-- Sample merge request: an open release to master MR flagged conflicting. -/
def sampleMR : MergeRequest :=
  { id := 7, sourceBranch := "release", targetBranch := "master",
    hasConflicts := true, createdAt := 5 }

/-- Sample repository in namespace 10, not yet classified. -/
def sampleRepo : Repository :=
  { id := 1, name := "repo1", webURL := "https://gitlab.example.com/u/repo1",
    namespaceId := 10, status := .statusAccessible, error := none }

/-- Sample client whose per-repository merge-request fetch always fails. -/
def sampleErrClient : Client :=
  { projectsPage := fun _ => .ok []
    listMergeRequests := fun _ _ _ => .error "403 Forbidden"
    getMergeRequestChanges := fun _ _ => .error "403 Forbidden" }

/-- Sample client that reports one conflicting release to master MR with a
positive change count for every repository. -/
def sampleConflictClient : Client :=
  { projectsPage := fun _ => .ok []
    listMergeRequests := fun _ _ _ => .ok [sampleMR]
    getMergeRequestChanges := fun _ _ => .ok 1 }

/-- Scanner over the failing client with an empty whitelist. -/
def sampleErrScanner : RepositoryScanner :=
  { client := sampleErrClient, includeGroups := [] }

/-- Scanner over the conflict-reporting client with an empty whitelist. -/
def sampleConflictScanner : RepositoryScanner :=
  { client := sampleConflictClient, includeGroups := [] }

/-! ## Theorems -/

/-- One AddRepository call preserves the counter equations. -/
lemma addRepository_consistent (r : Report) (repo : Repository)
    (mrs : List MergeRequest) (status : RepositoryStatus) (msg : String)
    (h : summaryConsistent r) :
    summaryConsistent (r.AddRepository repo mrs status msg) := by
  obtain ⟨h1, h2, h3⟩ := h
  by_cases hs : status = RepositoryStatus.statusConflicts <;>
    · simp only [Report.AddRepository, summaryConsistent, conflictEntries, hs,
        List.filter_append, List.length_append, List.map_append, List.sum_append,
        if_true, if_false, ite_true, ite_false, reduceIte]
      simp only [conflictEntries] at h1 h2 h3
      refine ⟨?_, ?_, ?_⟩ <;> simp [h1, h2, h3, hs]

/-- A sequence of AddRepository calls preserves the counter equations. -/
lemma runAddCalls_consistent (calls : List AddCall) :
    ∀ r : Report, summaryConsistent r → summaryConsistent (runAddCalls r calls) := by
  induction calls with
  | nil => intro r h; exact h
  | cons c rest ih =>
      intro r h
      exact ih _ (addRepository_consistent r c.repo c.conflictingMRs c.status c.errorMsg h)

/-- C1: for any sequence of AddRepository calls starting from an empty
Report, TotalRepositories equals the number of entries in Repositories,
RepositoriesWithConflicts equals the number of entries whose status is
Conflicts, and TotalConflictingMRs equals the sum of the
conflicting-MR-list lengths over exactly the entries whose status is
Conflicts. -/
theorem C1_summary_consistency (calls : List AddCall) :
    (runAddCalls emptyReport calls).totalRepositories =
      ((runAddCalls emptyReport calls).repositories.length : Int) ∧
    (runAddCalls emptyReport calls).repositoriesWithConflicts =
      ((conflictEntries (runAddCalls emptyReport calls).repositories).length : Int) ∧
    (runAddCalls emptyReport calls).totalConflictingMRs =
      ((conflictEntries (runAddCalls emptyReport calls).repositories).map
        (fun e => (e.conflictingMRs.length : Int))).sum :=
  runAddCalls_consistent calls emptyReport ⟨rfl, rfl, rfl⟩

/-- C3: filterAndSortConflictingMRs returns exactly the sublist of inputs
with source branch release, target branch master and a set conflicts flag:
the output is a permutation of that sublist, and membership in the output
is equivalent to being such an element of the input. -/
theorem C3_branch_filter_exact (mrs : List MergeRequest) :
    (filterAndSortConflictingMRs mrs).Perm
      (mrs.filter (fun mr =>
        mr.sourceBranch == "release" && mr.targetBranch == "master" &&
          mr.hasConflicts)) ∧
    ∀ mr : MergeRequest,
      mr ∈ filterAndSortConflictingMRs mrs ↔
        mr ∈ mrs ∧ mr.sourceBranch = "release" ∧ mr.targetBranch = "master" ∧
          mr.hasConflicts = true := by
  refine ⟨List.perm_insertionSort _ _, fun mr => ?_⟩
  unfold filterAndSortConflictingMRs
  rw [List.Perm.mem_iff (List.perm_insertionSort _ _), List.mem_filter]
  simp [Bool.and_eq_true, and_assoc]

/-- C4: the Scanner classifies each repository by its merge-request fetch:
a failed fetch gives status Error carrying the error; zero merge requests
give NoMRs; any conflicting merge request gives Conflicts; merge requests
present but none conflicting give NoMRs; and a per-repository failure does
not abort the scan, which still returns one processed entry per filtered
repository whenever the repository listing succeeded. -/
theorem C4_scanner_classification (rs : RepositoryScanner) (repo : Repository) :
    (∀ e, rs.client.listMergeRequests repo.id "release" "master" = .error e →
      (rs.processRepository repo).status = .statusError ∧
      (rs.processRepository repo).error = some e) ∧
    (rs.client.listMergeRequests repo.id "release" "master" = .ok [] →
      (rs.processRepository repo).status = .statusNoMRs) ∧
    (∀ mrs, rs.client.listMergeRequests repo.id "release" "master" = .ok mrs →
      mrs.any (fun mr => mr.hasConflicts) = true →
      (rs.processRepository repo).status = .statusConflicts) ∧
    (∀ mrs, rs.client.listMergeRequests repo.id "release" "master" = .ok mrs →
      mrs ≠ [] → mrs.any (fun mr => mr.hasConflicts) = false →
      (rs.processRepository repo).status = .statusNoMRs) ∧
    (∀ fuel repos, rs.client.ListRepositories fuel = .ok repos →
      rs.ScanRepositories fuel =
        .ok ((rs.filterRepositories repos).map rs.processRepository)) := by
  refine ⟨?_, ?_, ?_, ?_, ?_⟩
  · intro e he
    simp [RepositoryScanner.processRepository, he]
  · intro h
    simp [RepositoryScanner.processRepository, h]
  · intro mrs h hc
    have hne : mrs.length ≠ 0 := by
      intro h0
      rw [List.length_eq_zero] at h0
      subst h0
      simp at hc
    simp [RepositoryScanner.processRepository, h, hne, hc]
  · intro mrs h hne hc
    have hlen : mrs.length ≠ 0 := by
      simpa [List.length_eq_zero] using hne
    simp [RepositoryScanner.processRepository, h, hlen, hc]
  · intro fuel repos h
    simp [RepositoryScanner.ScanRepositories, h]

/-- Witness for C4 at concrete inputs: the failing client yields an Error
classification carrying its error, the conflict-reporting client yields a
Conflicts classification, and the scan over the failing client still
succeeds. -/
theorem C4_scanner_classification_witness :
    ((sampleErrScanner.processRepository sampleRepo).status = .statusError ∧
      (sampleErrScanner.processRepository sampleRepo).error = some "403 Forbidden") ∧
    (sampleConflictScanner.processRepository sampleRepo).status = .statusConflicts ∧
    sampleErrScanner.ScanRepositories 1 =
      .ok ((sampleErrScanner.filterRepositories []).map
        sampleErrScanner.processRepository) :=
  ⟨(C4_scanner_classification sampleErrScanner sampleRepo).1 "403 Forbidden" rfl,
   (C4_scanner_classification sampleConflictScanner sampleRepo).2.2.1
     [sampleMR] rfl (by decide),
   (C4_scanner_classification sampleErrScanner sampleRepo).2.2.2.2 1 [] rfl⟩

/-- Fields of the repository returned by a successful analyzeRepository:
identity fields and the error field are unchanged and the status is one of
the three non-Error outcomes. -/
lemma analyzeRepository_ok_fields (c : Client) (x y : Repository)
    (h : analyzeRepository c x = .ok y) :
    y.id = x.id ∧ y.name = x.name ∧ y.webURL = x.webURL ∧
    y.namespaceId = x.namespaceId ∧ y.error = x.error ∧
    y.status ≠ .statusError := by
  unfold analyzeRepository at h
  cases hf : c.listMergeRequests x.id "release" "master" with
  | error e => rw [hf] at h; exact absurd h (by simp)
  | ok mrs =>
      rw [hf] at h
      simp only [Except.ok.injEq] at h
      subst h
      split <;> simp
      split <;> simp

/-- analyzeStep preserves the status-error consistency invariant. -/
lemma analyzeStep_errorConsistent (c : Client) (x : Repository)
    (hx : errorConsistent x) : errorConsistent (analyzeStep c x) := by
  by_cases hxe : x.status = RepositoryStatus.statusError
  · simpa [analyzeStep, hxe] using hx
  · have hxnone : x.error = none := by
      by_contra hne
      exact hxe (hx.mpr hne)
    simp only [analyzeStep, if_neg hxe]
    cases h2 : analyzeRepository c x with
    | error e => simp [errorConsistent]
    | ok y =>
        obtain ⟨-, -, -, -, herr, hst⟩ := analyzeRepository_ok_fields c x y h2
        simp [errorConsistent, hst, herr, hxnone]

/-- C7: after Scanner classification and after an AnalyzeMRs pass, each
status of each repository is Error exactly when its error field is non-nil; for
the analyzer, the input repositories are assumed to satisfy the invariant
(Error-status inputs are passed through unchanged). -/
theorem C7_error_status_invariant :
    (∀ (rs : RepositoryScanner) (repo : Repository),
      errorConsistent (rs.processRepository repo)) ∧
    (∀ (c : Client) (repos res : List Repository),
      (∀ r ∈ repos, errorConsistent r) →
      AnalyzeMRs (some c) repos = .ok res →
      ∀ r ∈ res, errorConsistent r) := by
  constructor
  · intro rs repo
    simp only [RepositoryScanner.processRepository, errorConsistent]
    split
    · simp
    · split
      · simp
      · split <;> simp
  · intro c repos res hinv h r hr
    simp only [AnalyzeMRs, Except.ok.injEq] at h
    subst h
    obtain ⟨x, hx, rfl⟩ := List.mem_map.mp hr
    exact analyzeStep_errorConsistent c x (hinv x hx)

/-- Witness for C7 at concrete inputs: the invariant holds of the Error
classification produced by the failing client, and of the analyzer output
over the conflict-reporting client. -/
theorem C7_error_status_invariant_witness :
    errorConsistent (sampleErrScanner.processRepository sampleRepo) ∧
    ∀ r ∈ [{ sampleRepo with status := RepositoryStatus.statusConflicts }],
      errorConsistent r :=
  ⟨C7_error_status_invariant.1 sampleErrScanner sampleRepo,
   C7_error_status_invariant.2 sampleConflictClient [sampleRepo] _
     (by intro r hr; simp at hr; subst hr; simp [errorConsistent, sampleRepo])
     rfl⟩

/-- C8: AnalyzeMRs with an absent client fails at once with the nil-client
error, independently of the repositories; with a client present it always
returns successfully, Error-status inputs pass through unchanged, and a
repository whose merge-request fetch fails gets its status overwritten to
Error with the new wrapped error while the batch continues. -/
theorem C8_analyze_mrs_error_handling :
    (∀ repos, AnalyzeMRs none repos = .error "gitlab client cannot be nil") ∧
    (∀ (c : Client) (repos : List Repository),
      ∃ res, AnalyzeMRs (some c) repos = .ok res) ∧
    (∀ (c : Client) (repos res : List Repository),
      AnalyzeMRs (some c) repos = .ok res →
      res.length = repos.length ∧
      ∀ i, (hi : i < repos.length) → (hi2 : i < res.length) →
        (repos[i].status = .statusError → res[i] = repos[i]) ∧
        (repos[i].status ≠ .statusError →
          ∀ e, c.listMergeRequests repos[i].id "release" "master" = .error e →
            res[i] = { repos[i] with
              status := .statusError,
              error := some ("failed to fetch merge requests for repository "
                ++ repos[i].name ++ ": " ++ e) })) := by
  refine ⟨fun repos => rfl, fun c repos => ⟨_, rfl⟩, ?_⟩
  intro c repos res h
  simp only [AnalyzeMRs, Except.ok.injEq] at h
  subst h
  refine ⟨List.length_map _ _, ?_⟩
  intro i hi hi2
  have hn : (repos.map (analyzeStep c))[i] = analyzeStep c repos[i] :=
    List.getElem_map _
  constructor
  · intro he
    rw [hn]
    simp [analyzeStep, he]
  · intro he e hfetch
    rw [hn]
    simp [analyzeStep, he, analyzeRepository, hfetch]

/-- Witness for C8 at concrete inputs: the nil-client error, a successful
batch over the failing client, and the Error overwrite produced for a
repository whose fetch fails. -/
theorem C8_analyze_mrs_error_handling_witness :
    AnalyzeMRs none [sampleRepo] = .error "gitlab client cannot be nil" ∧
    (∃ res, AnalyzeMRs (some sampleErrClient) [sampleRepo] = .ok res) ∧
    ([{ sampleRepo with
        status := RepositoryStatus.statusError,
        error := some "failed to fetch merge requests for repository repo1: 403 Forbidden" }] :
      List Repository).get ⟨0, by decide⟩ =
      { sampleRepo with
        status := RepositoryStatus.statusError,
        error := some "failed to fetch merge requests for repository repo1: 403 Forbidden" } := by
  refine ⟨C8_analyze_mrs_error_handling.1 [sampleRepo],
    C8_analyze_mrs_error_handling.2.1 sampleErrClient [sampleRepo], ?_⟩
  have h := (C8_analyze_mrs_error_handling.2.2 sampleErrClient [sampleRepo]
      [{ sampleRepo with
         status := RepositoryStatus.statusError,
         error := some "failed to fetch merge requests for repository repo1: 403 Forbidden" }]
      rfl).2 0 (by decide) (by decide)
  exact h.2 (by decide) "403 Forbidden" rfl

/-- C5: for a non-Error repository whose merge-request fetch succeeds, a
fetched release to master merge request flagged conflicting survives the
real-conflict filter exactly when its change-count lookup failed or
returned a positive count, and the analyzer assigns status Conflicts when
a survivor exists, Accessible when there are merge requests but no
survivor, and NoMRs when the fetch returned none. -/
theorem C5_analyzer_survivors (c : Client) (repo : Repository)
    (mrs : List MergeRequest)
    (hst : repo.status ≠ RepositoryStatus.statusError)
    (hfetch : c.listMergeRequests repo.id "release" "master" = .ok mrs) :
    (∀ mr ∈ mrs, mr.sourceBranch = "release" → mr.targetBranch = "master" →
      mr.hasConflicts = true →
      (mr ∈ filterAndSortRealConflictingMRs c repo.id mrs ↔
        (∃ e, c.getMergeRequestChanges repo.id mr.id = .error e) ∨
        (∃ n, c.getMergeRequestChanges repo.id mr.id = .ok n ∧ 0 < n))) ∧
    (∃ r2, analyzeRepository c repo = .ok r2 ∧
      AnalyzeMRs (some c) [repo] = .ok [r2] ∧
      r2.status =
        (if filterAndSortRealConflictingMRs c repo.id mrs ≠ [] then
          RepositoryStatus.statusConflicts
        else if mrs ≠ [] then RepositoryStatus.statusAccessible
        else RepositoryStatus.statusNoMRs)) := by
  constructor
  · intro mr hmr h1 h2 h3
    unfold filterAndSortRealConflictingMRs
    rw [List.Perm.mem_iff (List.perm_insertionSort _ _), List.mem_filter]
    simp only [h1, h2, h3, Bool.and_eq_true, beq_iff_eq, and_true, true_and,
      beq_self_eq_true, hmr]
    unfold hasActualChanges
    cases hg : c.getMergeRequestChanges repo.id mr.id with
    | error e => simp [hg]
    | ok n => simp [hg]
  · have hana : analyzeRepository c repo =
        .ok (if (filterAndSortRealConflictingMRs c repo.id mrs).length > 0 then
              { repo with status := RepositoryStatus.statusConflicts }
            else if mrs.length > 0 then
              { repo with status := RepositoryStatus.statusAccessible }
            else { repo with status := RepositoryStatus.statusNoMRs }) := by
      unfold analyzeRepository
      rw [hfetch]
    refine ⟨_, hana, ?_, ?_⟩
    · simp [AnalyzeMRs, analyzeStep, if_neg hst, hana]
    · simp only [gt_iff_lt, List.length_pos]
      by_cases hA : filterAndSortRealConflictingMRs c repo.id mrs = []
      · by_cases hB : mrs = []
        · subst hB
          simp [hA]
        · simp [hA, hB]
      · simp [hA]

/-- Witness for C5 at concrete inputs: over the conflict-reporting client
the sample merge request survives the filter and the repository is
classified Conflicts. -/
theorem C5_analyzer_survivors_witness :
    sampleMR ∈ filterAndSortRealConflictingMRs sampleConflictClient
      sampleRepo.id [sampleMR] ∧
    ∃ r2, analyzeRepository sampleConflictClient sampleRepo = .ok r2 ∧
      AnalyzeMRs (some sampleConflictClient) [sampleRepo] = .ok [r2] ∧
      r2.status = RepositoryStatus.statusConflicts := by
  have h := C5_analyzer_survivors sampleConflictClient sampleRepo [sampleMR]
    (by decide) rfl
  refine ⟨(h.1 sampleMR (by simp) rfl rfl rfl).mpr (Or.inr ⟨1, rfl, by decide⟩), ?_⟩
  obtain ⟨r2, h1, h2, h3⟩ := h.2
  refine ⟨r2, h1, h2, ?_⟩
  rw [h3]
  decide

/-- The ListRepositories pagination loop, run against a server that serves
a fixed chunk sequence (one chunk per page, empty past the end),
reassembles the concatenation of the chunks, provided every chunk before
the last has exactly the page size of 100 elements, the last chunk has at
most 100, and at least one more page request than there are chunks is
allowed. -/
lemma listRepositoriesAux_chunks (chunks : List (List Repository)) :
    ∀ (c : Client) (page fuel : Nat),
    (∀ k, c.projectsPage (page + k) = .ok (chunks.getD k [])) →
    (∀ i, i + 1 < chunks.length → (chunks.getD i []).length = 100) →
    (chunks.getD (chunks.length - 1) []).length ≤ 100 →
    chunks.length < fuel →
    listRepositoriesAux c 100 fuel page = .ok chunks.flatten := by
  induction chunks with
  | nil =>
      intro c page fuel hserve _ _ hfuel
      obtain ⟨f, rfl⟩ : ∃ f, fuel = f + 1 := ⟨fuel - 1, by omega⟩
      have hpage : c.projectsPage page = .ok [] := by simpa using hserve 0
      simp [listRepositoriesAux, hpage]
  | cons ch rest ih =>
      intro c page fuel hserve hfull hlast hfuel
      obtain ⟨f, rfl⟩ : ∃ f, fuel = f + 1 := ⟨fuel - 1, by omega⟩
      have hpage : c.projectsPage page = .ok ch := by simpa using hserve 0
      by_cases hlen : ch.length < 100
      · cases rest with
        | nil => simp [listRepositoriesAux, hpage, hlen]
        | cons r rs =>
            exfalso
            have h100 : ch.length = 100 := by
              have := hfull 0 (by simp)
              simpa using this
            omega
      · have hrest : listRepositoriesAux c 100 f (page + 1) = .ok rest.flatten := by
          apply ih
          · intro k
            have := hserve (k + 1)
            rw [show page + (k + 1) = page + 1 + k from by omega] at this
            simpa using this
          · intro i hi
            have := hfull (i + 1) (by simpa using Nat.succ_lt_succ hi)
            simpa using this
          · cases rest with
            | nil => simp
            | cons r rs => simpa [List.getD_cons_succ] using hlast
          · have hcons : (ch :: rest).length = rest.length + 1 := by simp
            omega
        simp [listRepositoriesAux, hpage, hlen, hrest]

/-- processRepository changes only the status and error fields. -/
lemma processRepository_fields (rs : RepositoryScanner) (r : Repository) :
    (rs.processRepository r).id = r.id ∧
    (rs.processRepository r).name = r.name ∧
    (rs.processRepository r).webURL = r.webURL ∧
    (rs.processRepository r).namespaceId = r.namespaceId := by
  simp only [RepositoryScanner.processRepository]
  split
  · simp
  · split
    · simp
    · split <;> simp

/-- List.contains over Int agrees with decidable membership. -/
lemma contains_eq_decide_mem (l : List Int) (a : Int) :
    l.contains a = decide (a ∈ l) := by
  induction l with
  | nil => simp
  | cons x xs ih =>
      by_cases h : a ∈ x :: xs <;> simp [h]

/-- C6: for every source repository list and every way pagination splits
it into per-page chunks (all pages before the last exactly 100 long, the
last at most 100, a page shorter than 100 ending the loop),
ScanRepositories succeeds and returns exactly the repositories of the
source that pass the namespace whitelist, all of them when the whitelist
is empty, with identity and original relative order preserved. -/
theorem C6_scan_completeness (source : List Repository)
    (chunks : List (List Repository))
    (lmr : Int → String → String → Except String (List MergeRequest))
    (gmc : Int → Int → Except String Int)
    (includeGroups : List Int) (fuel : Nat)
    (hjoin : chunks.flatten = source)
    (hfull : ∀ i, i + 1 < chunks.length → (chunks.getD i []).length = 100)
    (hlast : (chunks.getD (chunks.length - 1) []).length ≤ 100)
    (hfuel : chunks.length < fuel) :
    ∃ res,
      RepositoryScanner.ScanRepositories
        ⟨⟨fun page => .ok (chunks.getD (page - 1) []), lmr, gmc⟩, includeGroups⟩
        fuel = .ok res ∧
      res.map (fun r => (r.id, r.name, r.namespaceId)) =
        (if includeGroups = [] then source
         else source.filter (fun r => decide (r.namespaceId ∈ includeGroups))).map
          (fun r => (r.id, r.name, r.namespaceId)) := by
  have hlist :
      Client.ListRepositories
        ⟨fun page => .ok (chunks.getD (page - 1) []), lmr, gmc⟩ fuel =
        .ok source := by
    unfold Client.ListRepositories
    rw [listRepositoriesAux_chunks chunks _ 1 fuel (fun k => by simp)
      hfull hlast hfuel, hjoin]
  refine ⟨(RepositoryScanner.filterRepositories
      ⟨⟨fun page => .ok (chunks.getD (page - 1) []), lmr, gmc⟩, includeGroups⟩
      source).map
        (RepositoryScanner.processRepository
          ⟨⟨fun page => .ok (chunks.getD (page - 1) []), lmr, gmc⟩, includeGroups⟩),
    ?_, ?_⟩
  · unfold RepositoryScanner.ScanRepositories
    rw [hlist]
  · rw [List.map_map]
    rw [List.map_congr_left (fun r _ => by
      obtain ⟨e1, e2, e3, e4⟩ := processRepository_fields
        ⟨⟨fun page => .ok (chunks.getD (page - 1) []), lmr, gmc⟩, includeGroups⟩ r
      show (_, _, _) = (r.id, r.name, r.namespaceId)
      rw [e1, e2, e4])]
    congr 1
    by_cases hg : includeGroups = []
    · simp [RepositoryScanner.filterRepositories, hg]
    · have hlen : includeGroups.length ≠ 0 := by
        simpa [List.length_eq_zero] using hg
      simp only [RepositoryScanner.filterRepositories, if_neg hlen, if_neg hg]
      exact List.filter_congr (fun r _ => contains_eq_decide_mem includeGroups r.namespaceId)

/-- Witness for C6 at concrete inputs: a one-element source served as a
single short page passes through the scan intact with an empty whitelist. -/
theorem C6_scan_completeness_witness :
    ∃ res,
      RepositoryScanner.ScanRepositories
        ⟨⟨fun page => .ok ([[sampleRepo]].getD (page - 1) []),
          sampleErrClient.listMergeRequests,
          sampleErrClient.getMergeRequestChanges⟩, []⟩ 2 = .ok res ∧
      res.map (fun r => (r.id, r.name, r.namespaceId)) =
        (if ([] : List Int) = [] then [sampleRepo]
         else [sampleRepo].filter
          (fun r => decide (r.namespaceId ∈ ([] : List Int)))).map
          (fun r => (r.id, r.name, r.namespaceId)) :=
  C6_scan_completeness [sampleRepo] [[sampleRepo]]
    sampleErrClient.listMergeRequests sampleErrClient.getMergeRequestChanges
    [] 2 (by simp) (fun i hi => by simp at hi) (by simp) (by decide)

/-- Pointwise reading of the GetConflictingMRs loop body in terms of the
entry of the repository. -/
lemma getConflictingStep_apply (c : Client)
    (m : Int → Option (List MergeRequest)) (repo : Repository) (k : Int) :
    getConflictingStep c m repo k =
      match conflictsEntry c repo with
      | some conf => if k = repo.id then some conf else m k
      | none => m k := by
  unfold getConflictingStep conflictsEntry
  split
  · cases hf : c.listMergeRequests repo.id "release" "master" with
    | error e => simp
    | ok mrs =>
        simp only
        split <;> simp
  · simp

/-- Reading of the loop body when the repository contributes no entry. -/
lemma getConflictingStep_apply_none (c : Client)
    (m : Int → Option (List MergeRequest)) (repo : Repository) (k : Int)
    (he : conflictsEntry c repo = none) :
    getConflictingStep c m repo k = m k := by
  rw [getConflictingStep_apply, he]

/-- Reading of the loop body when the repository contributes an entry. -/
lemma getConflictingStep_apply_some (c : Client)
    (m : Int → Option (List MergeRequest)) (repo : Repository) (k : Int)
    (conf : List MergeRequest) (he : conflictsEntry c repo = some conf) :
    getConflictingStep c m repo k = if k = repo.id then some conf else m k := by
  rw [getConflictingStep_apply, he]

/-- A Conflicts entry exists exactly for a Conflicts repository with a
successful fetch and a non-empty survivor list, and carries that list. -/
lemma conflictsEntry_eq_some (c : Client) (repo : Repository)
    (conf : List MergeRequest) :
    conflictsEntry c repo = some conf ↔
      repo.status = .statusConflicts ∧
      ∃ mrs, c.listMergeRequests repo.id "release" "master" = .ok mrs ∧
        conf = filterAndSortRealConflictingMRs c repo.id mrs ∧ conf ≠ [] := by
  unfold conflictsEntry
  constructor
  · intro h
    split at h
    · rename_i hst
      cases hf : c.listMergeRequests repo.id "release" "master" with
      | error e => rw [hf] at h; simp at h
      | ok mrs =>
          rw [hf] at h
          simp only at h
          split at h
          · rename_i hpos
            refine ⟨hst, mrs, rfl, by simpa using h.symm, ?_⟩
            have : conf = filterAndSortRealConflictingMRs c repo.id mrs := by
              simpa using h.symm
            rw [this]
            exact List.length_pos.mp hpos
          · simp at h
    · simp at h
  · rintro ⟨hst, mrs, hf, rfl, hne⟩
    rw [if_pos hst, hf]
    simp only
    rw [if_pos (List.length_pos.mpr hne)]

/-- Keys not belonging to any listed repository are untouched by the
GetConflictingMRs loop. -/
lemma conflictsFold_ne (c : Client) (repos : List Repository) :
    ∀ (m0 : Int → Option (List MergeRequest)) (k : Int),
    (∀ repo ∈ repos, repo.id ≠ k) →
    repos.foldl (getConflictingStep c) m0 k = m0 k := by
  induction repos with
  | nil => intro m0 k _; rfl
  | cons r rest ih =>
      intro m0 k hk
      have hr : r.id ≠ k := hk r (by simp)
      have hrest := ih (getConflictingStep c m0 r) k
        (fun repo hm => hk repo (by simp [hm]))
      rw [List.foldl_cons, hrest]
      cases he : conflictsEntry c r with
      | none => rw [getConflictingStep_apply_none c m0 r k he]
      | some conf =>
          rw [getConflictingStep_apply_some c m0 r k conf he,
            if_neg (fun h : k = r.id => hr h.symm)]

/-- With duplicate-free ids, the GetConflictingMRs loop maps each listed
id of each listed repository to its own entry, falling back to the initial map when the
entry is none. -/
lemma conflictsFold_mem (c : Client) (repos : List Repository) :
    ∀ (m0 : Int → Option (List MergeRequest)) (repo : Repository),
    (repos.map (fun r => r.id)).Nodup → repo ∈ repos →
    repos.foldl (getConflictingStep c) m0 repo.id =
      match conflictsEntry c repo with
      | some conf => some conf
      | none => m0 repo.id := by
  induction repos with
  | nil => intro m0 repo _ hmem; simp at hmem
  | cons r rest ih =>
      intro m0 repo hnd hmem
      rw [List.map_cons, List.nodup_cons] at hnd
      obtain ⟨hnotin, hndrest⟩ := hnd
      rw [List.foldl_cons]
      rcases List.mem_cons.mp hmem with rfl | hmem2
      · have hne : ∀ x ∈ rest, x.id ≠ repo.id := by
          intro x hx h
          exact hnotin (h ▸ List.mem_map_of_mem (fun r => r.id) hx)
        rw [conflictsFold_ne c rest _ repo.id hne]
        cases he : conflictsEntry c repo with
        | none => rw [getConflictingStep_apply_none c m0 repo repo.id he]
        | some conf =>
            rw [getConflictingStep_apply_some c m0 repo repo.id conf he,
              if_pos rfl]
      · have hne : r.id ≠ repo.id := by
          intro h
          exact hnotin (h ▸ List.mem_map_of_mem (fun r => r.id) hmem2)
        rw [ih _ repo hndrest hmem2]
        cases he2 : conflictsEntry c repo with
        | none =>
            simp only
            cases he : conflictsEntry c r with
            | none => rw [getConflictingStep_apply_none c m0 r repo.id he]
            | some conf =>
                rw [getConflictingStep_apply_some c m0 r repo.id conf he,
                  if_neg (fun h : repo.id = r.id => hne h.symm)]
        | some conf => rfl

/-- Every key present in the GetConflictingMRs loop result over an
initially empty map belongs to a Conflicts repository of the list. -/
lemma conflictsFold_key_source (c : Client) (repos : List Repository) :
    ∀ (m0 : Int → Option (List MergeRequest)) (k : Int),
    repos.foldl (getConflictingStep c) m0 k ≠ none →
    m0 k ≠ none ∨
      ∃ repo ∈ repos, repo.id = k ∧ repo.status = .statusConflicts := by
  induction repos with
  | nil => intro m0 k h; exact Or.inl h
  | cons r rest ih =>
      intro m0 k h
      rw [List.foldl_cons] at h
      rcases ih _ k h with hstep | ⟨repo, hmem, hid, hst⟩
      · cases he : conflictsEntry c r with
        | none =>
            rw [getConflictingStep_apply_none c m0 r k he] at hstep
            exact Or.inl hstep
        | some conf =>
            rw [getConflictingStep_apply_some c m0 r k conf he] at hstep
            by_cases hk : k = r.id
            · refine Or.inr ⟨r, by simp, hk.symm, ?_⟩
              exact ((conflictsEntry_eq_some c r conf).mp he).1
            · rw [if_neg hk] at hstep
              exact Or.inl hstep
      · exact Or.inr ⟨repo, by simp [hmem], hid, hst⟩

/-- The GetConflictingMRs loop never stores an empty list when the initial
map holds none. -/
lemma conflictsFold_no_empty (c : Client) (repos : List Repository) :
    ∀ (m0 : Int → Option (List MergeRequest)),
    (∀ k l, m0 k = some l → l ≠ []) →
    ∀ k l, repos.foldl (getConflictingStep c) m0 k = some l → l ≠ [] := by
  induction repos with
  | nil => intro m0 hm0 k l h; exact hm0 k l h
  | cons r rest ih =>
      intro m0 hm0 k l h
      rw [List.foldl_cons] at h
      refine ih _ ?_ k l h
      intro k2 l2 h2
      cases he : conflictsEntry c r with
      | none =>
          rw [getConflictingStep_apply_none c m0 r k2 he] at h2
          exact hm0 k2 l2 h2
      | some conf =>
          rw [getConflictingStep_apply_some c m0 r k2 conf he] at h2
          by_cases hk : k2 = r.id
          · rw [if_pos hk] at h2
            obtain ⟨-, mrs, -, hconf, hne⟩ := (conflictsEntry_eq_some c r conf).mp he
            cases h2
            exact hne
          · rw [if_neg hk] at h2
            exact hm0 k2 l2 h2

/-- C9: GetConflictingMRs always returns successfully, queries only
repositories whose status is Conflicts (every key of the map is the id of
a Conflicts repository), stores the re-filtered and re-sorted conflicting
merge requests keyed by repository id, and silently skips a Conflicts
repository whose merge-request fetch fails: no entry for it and no error
surfaced. -/
theorem C9_get_conflicting_mrs_skip (c : Client) (repos : List Repository)
    (hnd : (repos.map (fun r => r.id)).Nodup) :
    ∃ m, GetConflictingMRs c repos = .ok m ∧
      (∀ repo ∈ repos, repo.status ≠ .statusConflicts → m repo.id = none) ∧
      (∀ repo ∈ repos, repo.status = .statusConflicts →
        ∀ e, c.listMergeRequests repo.id "release" "master" = .error e →
          m repo.id = none) ∧
      (∀ repo ∈ repos, repo.status = .statusConflicts →
        ∀ mrs, c.listMergeRequests repo.id "release" "master" = .ok mrs →
          filterAndSortRealConflictingMRs c repo.id mrs ≠ [] →
          m repo.id = some (filterAndSortRealConflictingMRs c repo.id mrs)) ∧
      (∀ k, m k ≠ none →
        ∃ repo ∈ repos, repo.id = k ∧ repo.status = .statusConflicts) := by
  refine ⟨_, rfl, ?_, ?_, ?_, ?_⟩
  · intro repo hmem hst
    rw [conflictsFold_mem c repos _ repo hnd hmem]
    have : conflictsEntry c repo = none := by
      unfold conflictsEntry
      rw [if_neg hst]
    rw [this]
  · intro repo hmem hst e hf
    rw [conflictsFold_mem c repos _ repo hnd hmem]
    have : conflictsEntry c repo = none := by
      unfold conflictsEntry
      rw [if_pos hst, hf]
    rw [this]
  · intro repo hmem hst mrs hf hne
    rw [conflictsFold_mem c repos _ repo hnd hmem]
    have : conflictsEntry c repo =
        some (filterAndSortRealConflictingMRs c repo.id mrs) :=
      (conflictsEntry_eq_some c repo _).mpr ⟨hst, mrs, hf, rfl, hne⟩
    rw [this]
  · intro k hk
    rcases conflictsFold_key_source c repos _ k hk with h0 | h
    · exact absurd rfl h0
    · exact h

/-- Witness for C9 at concrete inputs: a Conflicts repository whose fetch
fails is silently skipped and the call still succeeds. -/
theorem C9_get_conflicting_mrs_skip_witness :
    ∃ m, GetConflictingMRs sampleErrClient
        [{ sampleRepo with status := RepositoryStatus.statusConflicts }] = .ok m ∧
      m sampleRepo.id = none := by
  obtain ⟨m, hok, -, hskip, -, -⟩ := C9_get_conflicting_mrs_skip sampleErrClient
    [{ sampleRepo with status := RepositoryStatus.statusConflicts }] (by simp)
  exact ⟨m, hok,
    hskip { sampleRepo with status := RepositoryStatus.statusConflicts }
      (by simp) rfl "403 Forbidden" rfl⟩

/-- C10: the map GetConflictingMRs returns has no entry holding an empty
list, and the id of a listed repository is a key exactly when its status is
Conflicts, its fetch succeeded and at least one merge request survived the
filter. -/
theorem C10_get_conflicting_mrs_no_empty (c : Client)
    (repos : List Repository)
    (hnd : (repos.map (fun r => r.id)).Nodup) :
    ∃ m, GetConflictingMRs c repos = .ok m ∧
      (∀ k l, m k = some l → l ≠ []) ∧
      (∀ repo ∈ repos,
        (m repo.id ≠ none ↔
          repo.status = .statusConflicts ∧
          ∃ mrs, c.listMergeRequests repo.id "release" "master" = .ok mrs ∧
            filterAndSortRealConflictingMRs c repo.id mrs ≠ [])) := by
  refine ⟨_, rfl, ?_, ?_⟩
  · exact conflictsFold_no_empty c repos _ (fun k l h => by cases h)
  · intro repo hmem
    rw [conflictsFold_mem c repos _ repo hnd hmem]
    constructor
    · intro h
      cases he : conflictsEntry c repo with
      | none => rw [he] at h; exact absurd rfl h
      | some conf =>
          obtain ⟨hst, mrs, hf, hconf, hne⟩ :=
            (conflictsEntry_eq_some c repo conf).mp he
          exact ⟨hst, mrs, hf, hconf ▸ hne⟩
    · rintro ⟨hst, mrs, hf, hne⟩
      have : conflictsEntry c repo =
          some (filterAndSortRealConflictingMRs c repo.id mrs) :=
        (conflictsEntry_eq_some c repo _).mpr ⟨hst, mrs, hf, rfl, hne⟩
      rw [this]
      simp

/-- Witness for C10 at concrete inputs: over the conflict-reporting client
the id of a Conflicts repository is a key and the stored lists are non-empty. -/
theorem C10_get_conflicting_mrs_no_empty_witness :
    ∃ m, GetConflictingMRs sampleConflictClient
        [{ sampleRepo with status := RepositoryStatus.statusConflicts }] = .ok m ∧
      (∀ k l, m k = some l → l ≠ []) ∧
      m sampleRepo.id ≠ none := by
  obtain ⟨m, hok, hnoempty, hiff⟩ := C10_get_conflicting_mrs_no_empty
    sampleConflictClient
    [{ sampleRepo with status := RepositoryStatus.statusConflicts }] (by simp)
  refine ⟨m, hok, hnoempty, ?_⟩
  exact (hiff { sampleRepo with status := RepositoryStatus.statusConflicts }
    (by simp)).mpr ⟨rfl, [sampleMR], rfl, by decide⟩

end MRCC
